import Mathlib

/-!
# Verification of the PersonalDiary dual-tier encryption core

Shallow embedding of `backend/app/services/encryption.py`,
`backend/app/services/auth.py` (recovery-code consumption),
`backend/app/routers/auth.py` (feature table) and the supporting models.

Modelling conventions:
* Python `bytes` and `str` values are modelled as `List Nat`; a string is
  represented by its UTF-8 byte sequence, so `str.encode` / `bytes.decode`
  are the identity on this representation, and byte validity is the
  predicate `b < 256`.
* The cryptographic primitives from the `cryptography` library
  (Argon2id, ChaCha20-Poly1305, SHA-256) are not part of this repository;
  they are modelled as concrete deterministic functions with the interface
  behaviour of the real library (output sizes, parameter validation,
  error cases), idealized in that distinct keys produce distinct
  keystream bytes at each position.
* Randomness (`os.urandom`, `secrets.token_bytes`) is modelled by passing
  the drawn bytes as explicit arguments.
* Fallible operations return `Except CryptoError` mirroring the exceptions
  the Python code can raise.
-/

/-- Errors surfaced by the encryption stack.  `saltTooShort`,
`invalidKeyLength`, `invalidNonceLength` and `invalidTag` model the
`ValueError` / `InvalidTag` exceptions actually raised by the
`cryptography` library; `invalidBase64` models `binascii.Error` from
`base64.b64decode`.  `malformedCiphertext` is modelled from the spec:
the spec's failure taxonomy names a `MalformedCiphertext` error for
too-short sealed blobs, but no code in the repository defines or raises
such an error; the constructor exists only so that the spec's statement
can be expressed and compared against the actual behaviour. -/
inductive CryptoError where
  | saltTooShort
  | invalidKeyLength
  | invalidNonceLength
  | invalidTag
  | invalidBase64
  | malformedCiphertext
deriving DecidableEq, Repr

/-- Modelled from the `cryptography` library: the Argon2id key-derivation
function, idealized as a concrete deterministic mixing function.  Faithful
interface behaviour: output is always exactly 32 bytes (the code passes
`length=32`), each output value is a byte (`< 256`), and the output is a
pure function of (password, salt). -/
def argon2id (password salt : List Nat) : List Nat :=
  (List.range 32).map (fun i =>
    (password.foldl (fun a b => a * 257 + b + 1) 3 * (i + 2)
      + 2 * salt.foldl (fun a b => a * 263 + b + 1) 5
      + 97 * i) % 256)

/-- Modelled from the `cryptography` library: the ChaCha20 keystream byte
at position `i` for a given key and nonce, idealized so that the byte at
position `i < 32` depends injectively on key byte `i`. -/
def chachaKeystream (key nonce : List Nat) (i : Nat) : Nat :=
  (key.getD (i % 32) 0 % 256 + nonce.foldl (fun a b => a * 269 + b + 1) (i + 11)) % 256

/-- XOR of a buffer with the ChaCha20 keystream (the stream-cipher layer of
ChaCha20-Poly1305). -/
def chachaXor (key nonce buf : List Nat) : List Nat :=
  (List.range buf.length).map (fun i => buf.getD i 0 ^^^ chachaKeystream key nonce i)

/-- Modelled from the `cryptography` library: the 16-byte Poly1305
authentication tag over the ciphertext, idealized as a concrete
deterministic function of (key, nonce, ciphertext). -/
def poly1305Tag (key nonce ct : List Nat) : List Nat :=
  (List.range 16).map (fun i =>
    (key.foldl (fun a b => a * 257 + b + 1) 7 * (i + 3)
      + 3 * nonce.foldl (fun a b => a * 277 + b + 1) 13
      + 5 * ct.foldl (fun a b => a * 281 + b + 1) 17
      + 29 * i) % 256)

/-- Modelled from the `cryptography` library:
`ChaCha20Poly1305(key).encrypt(nonce, pt, None)`.  The constructor raises
`ValueError` for a key that is not 32 bytes and `encrypt` raises for a
nonce that is not 12 bytes; otherwise the result is
`ciphertext || tag(16)`. -/
def chachaPolyEncrypt (key nonce pt : List Nat) : Except CryptoError (List Nat) :=
  if key.length ≠ 32 then .error .invalidKeyLength
  else if nonce.length ≠ 12 then .error .invalidNonceLength
  else
    let ct := chachaXor key nonce pt
    .ok (ct ++ poly1305Tag key nonce ct)

/-- Modelled from the `cryptography` library:
`ChaCha20Poly1305(key).decrypt(nonce, data, None)`.  Key and nonce length
checks mirror the library's `ValueError`s; data shorter than the 16-byte
tag, or a tag mismatch, raises `InvalidTag`. -/
def chachaPolyDecrypt (key nonce data : List Nat) : Except CryptoError (List Nat) :=
  if key.length ≠ 32 then .error .invalidKeyLength
  else if nonce.length ≠ 12 then .error .invalidNonceLength
  else if data.length < 16 then .error .invalidTag
  else
    let ct := data.take (data.length - 16)
    let tg := data.drop (data.length - 16)
    if tg = poly1305Tag key nonce ct then .ok (chachaXor key nonce ct)
    else .error .invalidTag

/-- Modelled from Python's `hashlib`: SHA-256 digest (32 bytes), idealized
as a concrete deterministic function. -/
def sha256Bytes (msg : List Nat) : List Nat :=
  (List.range 32).map (fun i =>
    (msg.foldl (fun a b => a * 283 + b + 1) (i + 41)) % 256)

/-- Lowercase hexadecimal digit character for a value below 16
(Python's `hexdigest`). -/
def hexLower (v : Nat) : Nat :=
  if v < 10 then 48 + v else 87 + v

/-- Uppercase hexadecimal digit character for a value below 16
(Python's `hex().upper()`). -/
def hexUpper (v : Nat) : Nat :=
  if v < 10 then 48 + v else 55 + v

/-- Lowercase hex encoding of a byte string (Python `bytes.hex()` /
`hexdigest()`). -/
def bytesToHexLower (bs : List Nat) : List Nat :=
  (bs.map (fun b => [hexLower (b / 16 % 16), hexLower (b % 16)])).flatten

/-- Uppercase hex encoding of a byte string (Python
`bytes.hex().upper()`). -/
def bytesToHexUpper (bs : List Nat) : List Nat :=
  (bs.map (fun b => [hexUpper (b / 16 % 16), hexUpper (b % 16)])).flatten

/-- Base64 alphabet character for a sextet value below 64
(standard alphabet used by Python's `base64.b64encode`). -/
def sextetChar (v : Nat) : Nat :=
  if v < 26 then 65 + v
  else if v < 52 then 71 + v
  else if v < 62 then v - 4
  else if v = 62 then 43
  else 47

/-- Inverse of the base64 alphabet: sextet value of a character, or `none`
for a character outside the alphabet. -/
def sextetVal (c : Nat) : Option Nat :=
  if 65 ≤ c ∧ c ≤ 90 then some (c - 65)
  else if 97 ≤ c ∧ c ≤ 122 then some (c - 71)
  else if 48 ≤ c ∧ c ≤ 57 then some (c + 4)
  else if c = 43 then some 62
  else if c = 47 then some 63
  else none

/-- Whether a character belongs to the base64 alphabet. -/
def isB64Char (c : Nat) : Bool :=
  (sextetVal c).isSome

/-- Modelled from Python's `base64.b64encode` (standard alphabet, with
`=` padding), producing the ASCII codes of the encoded string. -/
def b64encode : List Nat → List Nat
  | [] => []
  | [a] => [sextetChar (a / 4), sextetChar (a % 4 * 16), 61, 61]
  | [a, b] => [sextetChar (a / 4), sextetChar (a % 4 * 16 + b / 16),
               sextetChar (b % 16 * 4), 61]
  | a :: b :: c :: rest =>
      sextetChar (a / 4) :: sextetChar (a % 4 * 16 + b / 16)
        :: sextetChar (b % 16 * 4 + c / 64) :: sextetChar (c % 64)
        :: b64encode rest

/-- Decoding of a base64 character stream already filtered to alphabet
characters and `=`, four characters at a time, with `=` accepted as
terminal padding. -/
def b64decodeCore : List Nat → Option (List Nat)
  | [] => some []
  | c0 :: c1 :: c2 :: c3 :: rest => do
      let s0 ← sextetVal c0
      let s1 ← sextetVal c1
      if c2 = 61 ∧ c3 = 61 ∧ rest = [] then
        some [s0 * 4 + s1 / 16]
      else if c3 = 61 ∧ rest = [] then do
        let s2 ← sextetVal c2
        some [s0 * 4 + s1 / 16, s1 % 16 * 16 + s2 / 4]
      else do
        let s2 ← sextetVal c2
        let s3 ← sextetVal c3
        let tail ← b64decodeCore rest
        some ((s0 * 4 + s1 / 16) :: (s1 % 16 * 16 + s2 / 4)
              :: (s2 % 4 * 64 + s3) :: tail)
  | _ => none

/-- Modelled from Python's `base64.b64decode` applied to a `str`:
the string is first encoded as ASCII (a character of code 128 or above
raises), characters outside the alphabet are discarded (default
`validate=False`), and the remainder must consist of whole groups of
four with valid terminal padding, otherwise `binascii.Error` is raised
(modelled as `none`). -/
def b64decode (s : List Nat) : Option (List Nat) :=
  if s.any (fun c => 128 ≤ c) then none
  else b64decodeCore (s.filter (fun c => isB64Char c || c == 61))

/-! ## Functions of `backend/app/services/encryption.py` -/

/-- `E2EEncryption.validate_public_key`: base64-decode and accept iff the
decoded key is exactly 32 bytes; any exception yields `False`. -/
def validate_public_key (public_key_b64 : List Nat) : Bool :=
  match b64decode public_key_b64 with
  | some decoded => decide (decoded.length = 32)
  | none => false

/-- One iteration of `E2EEncryption.generate_recovery_codes`: 8 random
bytes, hex-encoded uppercase, grouped `XXXX-XXXX-XXXX-XXXX` (45 is the
ASCII code of the hyphen). -/
def recoveryCodeOf (randomBytes : List Nat) : List Nat :=
  let hexStr := bytesToHexUpper randomBytes
  (hexStr.take 4) ++ 45 :: ((hexStr.drop 4).take 4)
    ++ 45 :: ((hexStr.drop 8).take 4) ++ 45 :: ((hexStr.drop 12).take 4)

/-- The 8 bytes drawn by `secrets.token_bytes(8)` for the `j`-th code,
reading the random stream `rand` 8 bytes at a time. -/
def tokenBytes8 (rand : Nat → Nat) (j : Nat) : List Nat :=
  (List.range 8).map (fun k => rand (8 * j + k) % 256)

/-- `E2EEncryption.generate_recovery_codes`: `count` codes, each from a
fresh `secrets.token_bytes(8)` draw (the random stream is the explicit
argument `rand`). -/
def generate_recovery_codes (count : Nat) (rand : Nat → Nat) : List (List Nat) :=
  (List.range count).map (fun j => recoveryCodeOf (tokenBytes8 rand j))

/-- `E2EEncryption.hash_recovery_code`:
`hashlib.sha256(code.encode()).hexdigest()`. -/
def hash_recovery_code (code : List Nat) : List Nat :=
  bytesToHexLower (sha256Bytes code)

/-- `E2EEncryption.verify_encrypted_content`: base64-decode and check the
result is at least 28 bytes (12-byte nonce + 16-byte tag); any exception
yields `False`. -/
def verify_encrypted_content (encrypted_content : List Nat) : Bool :=
  match b64decode encrypted_content with
  | some decoded => decide (28 ≤ decoded.length)
  | none => false

/-- `UCEEncryption.derive_key_from_password`: Argon2id with `length=32`.
The `cryptography` library validates the salt at construction time
(`ValueError` for a salt shorter than 8 bytes) and accepts any password,
including the empty one. -/
def derive_key_from_password (password salt : List Nat) : Except CryptoError (List Nat) :=
  if salt.length < 8 then .error .saltTooShort
  else .ok (argon2id password salt)

/-- `UCEEncryption.encrypt_master_key`: derive the KDK, then
`nonce || ChaCha20Poly1305(kdk).encrypt(nonce, master_key, None)`;
the 12 random nonce bytes are the explicit argument. -/
def encrypt_master_key (master_key password salt nonce : List Nat) :
    Except CryptoError (List Nat) := do
  let kdk ← derive_key_from_password password salt
  let body ← chachaPolyEncrypt kdk nonce master_key
  .ok (nonce ++ body)

/-- `UCEEncryption.decrypt_master_key`: derive the KDK, split the blob as
`nonce = blob[:12]`, `ciphertext = blob[12:]`, and AEAD-decrypt. -/
def decrypt_master_key (encrypted_master_key password salt : List Nat) :
    Except CryptoError (List Nat) := do
  let kdk ← derive_key_from_password password salt
  chachaPolyDecrypt kdk (encrypted_master_key.take 12) (encrypted_master_key.drop 12)

/-- `UCEEncryption.encrypt_content`: AEAD-encrypt the plaintext under the
master key, prepend the nonce and base64-encode. -/
def encrypt_content (plaintext master_key nonce : List Nat) :
    Except CryptoError (List Nat) := do
  let body ← chachaPolyEncrypt master_key nonce plaintext
  .ok (b64encode (nonce ++ body))

/-- `UCEEncryption.decrypt_content`: base64-decode, split as
`nonce = data[:12]`, `ciphertext = data[12:]`, and AEAD-decrypt. -/
def decrypt_content (encrypted_content master_key : List Nat) :
    Except CryptoError (List Nat) :=
  match b64decode encrypted_content with
  | none => .error .invalidBase64
  | some encrypted =>
      chachaPolyDecrypt master_key (encrypted.take 12) (encrypted.drop 12)

/-- `UCEEncryption.verify_password`: decode the wrapped master key and the
salt, attempt `decrypt_master_key`, and map any exception to `False`. -/
def verify_password (password encrypted_master_key_b64 salt_b64 : List Nat) : Bool :=
  match b64decode encrypted_master_key_b64, b64decode salt_b64 with
  | some emk, some salt =>
      match decrypt_master_key emk password salt with
      | .ok _ => true
      | .error _ => false
  | _, _ => false

/-- `UCEEncryption.compute_content_hash`:
`hashlib.sha256(plaintext.encode()).hexdigest()`. -/
def compute_content_hash (plaintext : List Nat) : List Nat :=
  bytesToHexLower (sha256Bytes plaintext)

/-! ## Tier feature table (`backend/app/routers/auth.py`,
`backend/app/models/user.py`) -/

/-- `EncryptionTier` enum from `backend/app/models/user.py`. -/
inductive EncryptionTier where
  | e2e
  | uce
deriving DecidableEq, Repr

/-- `User.is_uce`: `encryption_tier == EncryptionTier.UCE`. -/
def is_uce (tier : EncryptionTier) : Bool :=
  tier == EncryptionTier.uce

/-- The feature dictionary built by `get_features` in
`backend/app/routers/auth.py`. -/
structure FeatureFlags where
  server_search : Bool
  server_ai : Bool
  easy_recovery : Bool
  auto_multi_device_sync : Bool
  user_sharing : Bool
deriving DecidableEq, Repr

/-- `get_features`: every tier-gated feature is `current_user.is_uce`;
`user_sharing` is hard-coded `False`. -/
def get_features (tier : EncryptionTier) : FeatureFlags :=
  { server_search := is_uce tier
    server_ai := is_uce tier
    easy_recovery := is_uce tier
    auto_multi_device_sync := is_uce tier
    user_sharing := false }

/-! ## Recovery-code consumption (`backend/app/services/auth.py`,
`backend/app/models/e2e.py`) -/

/-- A row of the `e2e_recovery_codes` table
(`E2ERecoveryCode` in `backend/app/models/e2e.py`): the code hash, the
`used` boolean (default `False`) and the optional `used_at` timestamp. -/
structure RecoveryCodeRow where
  userId : Nat
  codeHash : List Nat
  used : Bool
  usedAt : Option Nat
deriving DecidableEq, Repr

/-- The filter used by `AuthService.verify_recovery_code`:
`user_id == uid AND code_hash == h AND used_at IS NULL`. -/
def recoveryRowMatches (uid : Nat) (h : List Nat) (r : RecoveryCodeRow) : Bool :=
  r.userId == uid && r.codeHash == h && r.usedAt == none

/-- `AuthService.verify_recovery_code`: hash the submitted code, select
the row with matching user, hash and `used_at IS NULL`
(`scalar_one_or_none` — `none` here models the `MultipleResultsFound`
exception when several rows match); if a row is found, set its `used_at`
to the current time and return `True`, otherwise return `False`.  The
returned list is the database state after the call. -/
def verify_recovery_code (db : List RecoveryCodeRow) (uid : Nat)
    (recovery_code : List Nat) (now : Nat) :
    Option (Bool × List RecoveryCodeRow) :=
  match db.filter (recoveryRowMatches uid (hash_recovery_code recovery_code)) with
  | [] => some (false, db)
  | [_] => some (true, db.map (fun r =>
      if recoveryRowMatches uid (hash_recovery_code recovery_code) r then
        { r with usedAt := some now }
      else r))
  | _ => none

/-- Whether a character is an uppercase hexadecimal digit (`0-9A-F`). -/
def isUpperHexDigit (c : Nat) : Bool :=
  decide ((48 ≤ c ∧ c ≤ 57) ∨ (65 ≤ c ∧ c ≤ 70))

/-- Value of an uppercase hexadecimal digit character (inverse of
`hexUpper` on digits). -/
def hexUpperVal (c : Nat) : Nat :=
  if c < 58 then c - 48 else c - 55

/-- The 8 bytes encoded by a recovery code in `XXXX-XXXX-XXXX-XXXX`
shape, read back from the hex characters (left inverse of
`recoveryCodeOf` on byte inputs). -/
def codeBytes (c : List Nat) : List Nat :=
  [hexUpperVal (c.getD 0 0) * 16 + hexUpperVal (c.getD 1 0),
   hexUpperVal (c.getD 2 0) * 16 + hexUpperVal (c.getD 3 0),
   hexUpperVal (c.getD 5 0) * 16 + hexUpperVal (c.getD 6 0),
   hexUpperVal (c.getD 7 0) * 16 + hexUpperVal (c.getD 8 0),
   hexUpperVal (c.getD 10 0) * 16 + hexUpperVal (c.getD 11 0),
   hexUpperVal (c.getD 12 0) * 16 + hexUpperVal (c.getD 13 0),
   hexUpperVal (c.getD 15 0) * 16 + hexUpperVal (c.getD 16 0),
   hexUpperVal (c.getD 17 0) * 16 + hexUpperVal (c.getD 18 0)]

/-! ## Concrete test vectors (used by witnesses and counterexamples) -/

/-- A 32-byte all-zero salt. -/
def testSalt : List Nat := List.replicate 32 0

/-- A 12-byte all-zero nonce (the bytes `os.urandom(12)` returned). -/
def testNonce : List Nat := List.replicate 12 0

/-- A 32-byte master key. -/
def testMek : List Nat := List.range 32

/-- The password `a`. -/
def testPassword : List Nat := [97]

/-- The password `b`. -/
def testPassword2 : List Nat := [98]

/-- The wrapped master key produced for the test password, salt and
nonce. -/
def testWrapped : List Nat :=
  (encrypt_master_key testMek testPassword testSalt testNonce).toOption.getD []

/-- The base64 sealed content produced for a two-byte plaintext under the
test key and nonce. -/
def testContentSealed : List Nat :=
  (encrypt_content [72, 105] testMek testNonce).toOption.getD []

/-- A 27-byte all-zero blob: one byte short of the 28-byte
nonce-plus-tag minimum. -/
def testSealed27 : List Nat := List.replicate 27 0

/-- The recovery code `AB`. -/
def testCodeA : List Nat := [65, 66]

/-- A one-row recovery-code table holding the unused hash of
`testCodeA` for user 0. -/
def testDb : List RecoveryCodeRow :=
  [{ userId := 0, codeHash := hash_recovery_code testCodeA, used := false, usedAt := none }]

/-- A random stream: byte `i` is `i`. -/
def streamA : Nat → Nat := fun i => i

/-- A random stream agreeing with `streamA` except at byte 8. -/
def streamB : Nat → Nat := fun i => if i = 8 then 99 else i

/-! ## Helper lemmas: base64 -/

theorem sextetVal_sextetChar : ∀ v < 64, sextetVal (sextetChar v) = some v := by
  decide

theorem sextetChar_ne_61 : ∀ v < 64, sextetChar v ≠ 61 := by
  decide

theorem sextetChar_lt_128 : ∀ v < 64, sextetChar v < 128 := by
  decide

theorem isB64Char_sextetChar : ∀ v < 64, isB64Char (sextetChar v) = true := by
  decide

/-- Custom induction principle matching the three-bytes-at-a-time
recursion of `b64encode`. -/
theorem threeStepRecursion (P : List Nat → Prop) (h0 : P []) (h1 : ∀ a, P [a])
    (h2 : ∀ a b, P [a, b]) (h3 : ∀ a b c rest, P rest → P (a :: b :: c :: rest)) :
    ∀ l, P l := by
  have key : ∀ n l, List.length l ≤ n → P l := by
    intro n
    induction n with
    | zero =>
      intro l hl
      have : l = [] := List.eq_nil_of_length_eq_zero (Nat.le_zero.mp hl)
      simpa [this] using h0
    | succ n ih =>
      intro l hl
      match l with
      | [] => exact h0
      | [a] => exact h1 a
      | [a, b] => exact h2 a b
      | a :: b :: c :: rest =>
        refine h3 a b c rest (ih rest ?_)
        simp only [List.length_cons] at hl
        omega
  exact fun l => key l.length l le_rfl

theorem b64decodeCore_b64encode :
    ∀ l, (∀ b ∈ l, b < 256) → b64decodeCore (b64encode l) = some l := by
  refine threeStepRecursion _ ?_ ?_ ?_ ?_
  · intro _
    simp [b64encode, b64decodeCore]
  · intro a h
    have ha : a < 256 := h a (by simp)
    have h0 : a / 4 < 64 := by omega
    have h1 : a % 4 * 16 < 64 := by omega
    simp [b64encode, b64decodeCore, sextetVal_sextetChar _ h0,
      sextetVal_sextetChar _ h1]
    omega
  · intro a b h
    have ha : a < 256 := h a (by simp)
    have hb : b < 256 := h b (by simp)
    have h0 : a / 4 < 64 := by omega
    have h1 : a % 4 * 16 + b / 16 < 64 := by omega
    have h2 : b % 16 * 4 < 64 := by omega
    have hne2 : sextetChar (b % 16 * 4) ≠ 61 := sextetChar_ne_61 _ h2
    simp [b64encode, b64decodeCore, sextetVal_sextetChar _ h0,
      sextetVal_sextetChar _ h1, sextetVal_sextetChar _ h2, hne2]
    constructor <;> omega
  · intro a b c rest ih h
    have ha : a < 256 := h a (by simp)
    have hb : b < 256 := h b (by simp)
    have hc : c < 256 := h c (by simp)
    have h0 : a / 4 < 64 := by omega
    have h1 : a % 4 * 16 + b / 16 < 64 := by omega
    have h2 : b % 16 * 4 + c / 64 < 64 := by omega
    have h3 : c % 64 < 64 := by omega
    have hne2 : sextetChar (b % 16 * 4 + c / 64) ≠ 61 := sextetChar_ne_61 _ h2
    have hne3 : sextetChar (c % 64) ≠ 61 := sextetChar_ne_61 _ h3
    have hrest : ∀ x ∈ rest, x < 256 := fun x hx => h x (by simp [hx])
    simp [b64encode, b64decodeCore, sextetVal_sextetChar _ h0,
      sextetVal_sextetChar _ h1, sextetVal_sextetChar _ h2,
      sextetVal_sextetChar _ h3, hne2, hne3, ih hrest]
    refine ⟨by omega, by omega, by omega⟩

theorem b64encode_chars :
    ∀ l, (∀ b ∈ l, b < 256) →
      ∀ c ∈ b64encode l, (isB64Char c || c == 61) = true ∧ c < 128 := by
  refine threeStepRecursion _ ?_ ?_ ?_ ?_
  · intro _ c hc
    simp [b64encode] at hc
  · intro a h c hc
    have ha : a < 256 := h a (by simp)
    have h0 : a / 4 < 64 := by omega
    have h1 : a % 4 * 16 < 64 := by omega
    simp [b64encode] at hc
    rcases hc with rfl | rfl | rfl
    · exact ⟨by simp [isB64Char_sextetChar _ h0], sextetChar_lt_128 _ h0⟩
    · exact ⟨by simp [isB64Char_sextetChar _ h1], sextetChar_lt_128 _ h1⟩
    · exact ⟨by simp, by omega⟩
  · intro a b h c hc
    have ha : a < 256 := h a (by simp)
    have hb : b < 256 := h b (by simp)
    have h0 : a / 4 < 64 := by omega
    have h1 : a % 4 * 16 + b / 16 < 64 := by omega
    have h2 : b % 16 * 4 < 64 := by omega
    simp [b64encode] at hc
    rcases hc with rfl | rfl | rfl | rfl
    · exact ⟨by simp [isB64Char_sextetChar _ h0], sextetChar_lt_128 _ h0⟩
    · exact ⟨by simp [isB64Char_sextetChar _ h1], sextetChar_lt_128 _ h1⟩
    · exact ⟨by simp [isB64Char_sextetChar _ h2], sextetChar_lt_128 _ h2⟩
    · exact ⟨by simp, by omega⟩
  · intro a b c rest ih h x hx
    have ha : a < 256 := h a (by simp)
    have hb : b < 256 := h b (by simp)
    have hc : c < 256 := h c (by simp)
    have h0 : a / 4 < 64 := by omega
    have h1 : a % 4 * 16 + b / 16 < 64 := by omega
    have h2 : b % 16 * 4 + c / 64 < 64 := by omega
    have h3 : c % 64 < 64 := by omega
    have hrest : ∀ y ∈ rest, y < 256 := fun y hy => h y (by simp [hy])
    simp only [b64encode, List.mem_cons] at hx
    rcases hx with rfl | rfl | rfl | rfl | hx
    · exact ⟨by simp [isB64Char_sextetChar _ h0], sextetChar_lt_128 _ h0⟩
    · exact ⟨by simp [isB64Char_sextetChar _ h1], sextetChar_lt_128 _ h1⟩
    · exact ⟨by simp [isB64Char_sextetChar _ h2], sextetChar_lt_128 _ h2⟩
    · exact ⟨by simp [isB64Char_sextetChar _ h3], sextetChar_lt_128 _ h3⟩
    · exact ih hrest x hx

/-- Base64 round trip: decoding an encoded byte string recovers it. -/
theorem b64decode_b64encode (l : List Nat) (h : ∀ b ∈ l, b < 256) :
    b64decode (b64encode l) = some l := by
  have hchars := b64encode_chars l h
  have hany : (b64encode l).any (fun c => 128 ≤ c) = false := by
    rw [List.any_eq_false]
    intro c hc
    have := (hchars c hc).2
    simp
    omega
  have hfilter : (b64encode l).filter (fun c => isB64Char c || c == 61) = b64encode l :=
    List.filter_eq_self.mpr (fun c hc => (hchars c hc).1)
  rw [b64decode, hany]
  simp only [Bool.false_eq_true, if_false, hfilter]
  exact b64decodeCore_b64encode l h

/-! ## Helper lemmas: the AEAD layer -/

theorem chachaXor_length (key nonce buf : List Nat) :
    (chachaXor key nonce buf).length = buf.length := by
  simp [chachaXor]

theorem poly1305Tag_length (key nonce ct : List Nat) :
    (poly1305Tag key nonce ct).length = 16 := by
  simp [poly1305Tag]

theorem argon2id_length (password salt : List Nat) :
    (argon2id password salt).length = 32 := by
  simp [argon2id]

theorem chachaKeystream_lt_256 (key nonce : List Nat) (i : Nat) :
    chachaKeystream key nonce i < 256 := by
  simp only [chachaKeystream]
  exact Nat.mod_lt _ (by norm_num)

theorem argon2id_lt_256 (password salt : List Nat) :
    ∀ b ∈ argon2id password salt, b < 256 := by
  intro b hb
  simp only [argon2id, List.mem_map, List.mem_range] at hb
  obtain ⟨i, _, rfl⟩ := hb
  exact Nat.mod_lt _ (by norm_num)

theorem poly1305Tag_lt_256 (key nonce ct : List Nat) :
    ∀ b ∈ poly1305Tag key nonce ct, b < 256 := by
  intro b hb
  simp only [poly1305Tag, List.mem_map, List.mem_range] at hb
  obtain ⟨i, _, rfl⟩ := hb
  exact Nat.mod_lt _ (by norm_num)

theorem chachaXor_getElem (key nonce buf : List Nat) (i : Nat)
    (h : i < (chachaXor key nonce buf).length) :
    (chachaXor key nonce buf)[i] = buf.getD i 0 ^^^ chachaKeystream key nonce i := by
  simp [chachaXor]

theorem chachaXor_getD (key nonce buf : List Nat) (i : Nat) (h : i < buf.length) :
    (chachaXor key nonce buf).getD i 0 = buf.getD i 0 ^^^ chachaKeystream key nonce i := by
  have h' : i < (chachaXor key nonce buf).length := by
    rw [chachaXor_length]; exact h
  rw [List.getD_eq_getElem _ 0 h', chachaXor_getElem]

theorem chachaXor_chachaXor (key nonce buf : List Nat) :
    chachaXor key nonce (chachaXor key nonce buf) = buf := by
  apply List.ext_getElem
  · simp [chachaXor_length]
  · intro i h1 h2
    rw [chachaXor_getElem _ _ _ _ h1]
    rw [chachaXor_getD _ _ _ _ h2]
    rw [Nat.xor_cancel_right]
    exact List.getD_eq_getElem buf 0 h2

theorem chachaXor_lt_256 (key nonce buf : List Nat) (h : ∀ b ∈ buf, b < 256) :
    ∀ b ∈ chachaXor key nonce buf, b < 256 := by
  intro b hb
  simp only [chachaXor, List.mem_map, List.mem_range] at hb
  obtain ⟨i, hi, rfl⟩ := hb
  have hbuf : buf.getD i 0 < 256 := by
    rw [List.getD_eq_getElem _ 0 hi]
    exact h _ (List.getElem_mem hi)
  have h256 : (256 : Nat) = 2 ^ 8 := by norm_num
  rw [h256] at hbuf ⊢
  exact Nat.xor_lt_two_pow hbuf (by rw [← h256]; exact chachaKeystream_lt_256 key nonce i)

theorem chachaPolyEncrypt_ok (key nonce pt : List Nat) (hk : key.length = 32)
    (hn : nonce.length = 12) :
    chachaPolyEncrypt key nonce pt =
      .ok (chachaXor key nonce pt ++ poly1305Tag key nonce (chachaXor key nonce pt)) := by
  simp [chachaPolyEncrypt, hk, hn]

theorem chachaPolyDecrypt_seal (key nonce pt : List Nat) (hk : key.length = 32)
    (hn : nonce.length = 12) :
    chachaPolyDecrypt key nonce
      (chachaXor key nonce pt ++ poly1305Tag key nonce (chachaXor key nonce pt)) =
      .ok pt := by
  have hct := chachaXor_length key nonce pt
  have htag := poly1305Tag_length key nonce (chachaXor key nonce pt)
  have hlen : (chachaXor key nonce pt ++ poly1305Tag key nonce (chachaXor key nonce pt)).length
      = pt.length + 16 := by
    simp [hct, htag]
  have hsub : pt.length + 16 - 16 = (chachaXor key nonce pt).length := by omega
  rw [chachaPolyDecrypt]
  rw [if_neg (by omega), if_neg (by omega), if_neg (by omega)]
  simp only [hlen, hsub]
  rw [List.take_left, List.drop_left, if_pos rfl, chachaXor_chachaXor]

/-! ## Helper lemmas: hex encodings -/

theorem bytesToHexLower_length (bs : List Nat) :
    (bytesToHexLower bs).length = 2 * bs.length := by
  induction bs with
  | nil => simp [bytesToHexLower]
  | cons a t ih =>
    simp only [bytesToHexLower, List.map_cons, List.flatten_cons,
      List.length_append, List.length_cons, List.length_nil] at ih ⊢
    omega

theorem hexLower_range : ∀ v < 16, (48 ≤ hexLower v ∧ hexLower v ≤ 57) ∨
    (97 ≤ hexLower v ∧ hexLower v ≤ 102) := by
  decide

theorem mem_bytesToHexLower (bs : List Nat) (c : Nat) (hc : c ∈ bytesToHexLower bs) :
    ∃ v < 16, c = hexLower v := by
  simp only [bytesToHexLower, List.mem_flatten, List.mem_map] at hc
  obtain ⟨_, ⟨b, _, rfl⟩, hmem⟩ := hc
  simp only [List.mem_cons, List.not_mem_nil, or_false] at hmem
  rcases hmem with rfl | rfl
  · exact ⟨b / 16 % 16, by omega, rfl⟩
  · exact ⟨b % 16, by omega, rfl⟩

/-! ## Claim theorems -/

/-- C9: for every user, the features `server_search`, `server_ai`,
`easy_recovery` and `auto_multi_device_sync` are each true iff the user's
encryption tier is UCE, and `user_sharing` is false for every user
regardless of tier. -/
theorem tier_feature_table (t : EncryptionTier) :
    ((get_features t).server_search = true ↔ t = EncryptionTier.uce) ∧
    ((get_features t).server_ai = true ↔ t = EncryptionTier.uce) ∧
    ((get_features t).easy_recovery = true ↔ t = EncryptionTier.uce) ∧
    ((get_features t).auto_multi_device_sync = true ↔ t = EncryptionTier.uce) ∧
    (get_features t).user_sharing = false := by
  cases t <;> simp [get_features, is_uce]

/-- C10: `E2EEncryption.hash_recovery_code` and
`UCEEncryption.compute_content_hash` are extensionally equal: both return
the lowercase-hex SHA-256 digest (64 hex characters) of the input's
UTF-8 encoding, deterministically (both are pure functions of the
input). -/
theorem hash_recovery_code_eq_compute_content_hash (s : List Nat) :
    hash_recovery_code s = compute_content_hash s ∧
    (hash_recovery_code s).length = 64 ∧
    (∀ c ∈ hash_recovery_code s,
      (48 ≤ c ∧ c ≤ 57) ∨ (97 ≤ c ∧ c ≤ 102)) := by
  refine ⟨rfl, ?_, ?_⟩
  · have h32 : (sha256Bytes s).length = 32 := by simp [sha256Bytes]
    rw [hash_recovery_code, bytesToHexLower_length, h32]
  · intro c hc
    obtain ⟨v, hv, rfl⟩ := mem_bytesToHexLower _ c hc
    exact hexLower_range v hv

/-- C8: `validate_public_key` returns true iff base64-decoding the input
yields exactly 32 bytes; any input that fails to decode yields false
(the function is total, so no exception escapes). -/
theorem validate_public_key_iff (s : List Nat) :
    validate_public_key s = true ↔ ∃ d, b64decode s = some d ∧ d.length = 32 := by
  unfold validate_public_key
  cases h : b64decode s with
  | none => simp
  | some d => simp

/-- C3: `verify_password` is a total boolean function that returns true
iff both base64 decodes succeed and decryption of the decoded wrapped
master key with the key derived from the password succeeds (the AEAD tag
verifies); every failure path, including malformed base64, yields
`false` rather than an exception. -/
theorem verify_password_iff (password emk_b64 salt_b64 : List Nat) :
    verify_password password emk_b64 salt_b64 = true ↔
      ∃ emk salt mk, b64decode emk_b64 = some emk ∧ b64decode salt_b64 = some salt ∧
        decrypt_master_key emk password salt = Except.ok mk := by
  unfold verify_password
  cases h1 : b64decode emk_b64 with
  | none => simp
  | some emk =>
    cases h2 : b64decode salt_b64 with
    | none => simp
    | some salt =>
      cases h3 : decrypt_master_key emk password salt with
      | ok mk => simp [h3]
      | error e => simp [h3]

/-- C5 (amended): a salt shorter than 8 bytes, in particular the empty
salt, is rejected (the KDF's `ValueError`, there being no
repository-defined `InvalidInput` error); an empty password is accepted;
for every password and every 32-byte salt the derivation succeeds and
deterministically returns a 32-byte key. -/
theorem derive_key_amended (password salt : List Nat) (hsalt : salt.length = 32) :
    (∃ k, derive_key_from_password password salt = Except.ok k ∧ k.length = 32) ∧
    derive_key_from_password password [] = Except.error CryptoError.saltTooShort := by
  refine ⟨⟨argon2id password salt, ?_, argon2id_length _ _⟩, ?_⟩
  · rw [derive_key_from_password, if_neg (by omega)]
  · rw [derive_key_from_password, if_pos (by simp)]

/-- Witness for C5: the amended statement instantiated at the password
`a` and the all-zero 32-byte salt. -/
theorem derive_key_amended_witness :
    testSalt.length = 32 ∧
    (∃ k, derive_key_from_password testPassword testSalt = Except.ok k ∧ k.length = 32) :=
  ⟨by decide, (derive_key_amended testPassword testSalt (by decide)).1⟩

/-- C5 counterexample: the claim says an empty password is rejected with
an `InvalidInput` error, but derivation with the empty password and a
valid 32-byte salt succeeds. -/
theorem derive_key_empty_password_accepted :
    derive_key_from_password [] testSalt = Except.ok (argon2id [] testSalt) := by
  rw [derive_key_from_password, if_neg (by decide)]

/-- Core of C4: the AEAD decrypt call on a sealed blob shorter than 28
bytes always fails after the code's `[:12]` / `[12:]` split. -/
theorem chachaPolyDecrypt_short (key sealed : List Nat) (h : sealed.length < 28)
    (x : List Nat) :
    chachaPolyDecrypt key (sealed.take 12) (sealed.drop 12) ≠ Except.ok x := by
  intro hcon
  rw [chachaPolyDecrypt] at hcon
  split_ifs at hcon with h1 h2 h3
  simp only [List.length_take, List.length_drop] at h2 h3
  omega

/-- C4 (amended): every sealed input shorter than 28 bytes (12-byte nonce
plus 16-byte tag minimum) always fails to decrypt — `decrypt_master_key`
and `decrypt_content` never return a plaintext for it, and
`verify_encrypted_content` reports it invalid — but the rejection comes
from the AEAD layer's nonce-length and tag checks during the decrypt
call; the code performs no explicit length pre-check and defines no
`MalformedCiphertext` error. -/
theorem short_sealed_always_fails (key sealed s password salt mk pt : List Nat)
    (h : sealed.length < 28) :
    decrypt_master_key sealed password salt ≠ Except.ok mk ∧
    (b64decode s = some sealed →
      decrypt_content s key ≠ Except.ok pt ∧ verify_encrypted_content s = false) := by
  constructor
  · intro hcon
    rw [decrypt_master_key] at hcon
    cases hd : derive_key_from_password password salt with
    | error e => rw [hd] at hcon; exact Except.noConfusion hcon
    | ok kdk =>
      rw [hd] at hcon
      exact chachaPolyDecrypt_short kdk sealed h mk hcon
  · intro hs
    constructor
    · intro hcon
      rw [decrypt_content, hs] at hcon
      exact chachaPolyDecrypt_short key sealed h pt hcon
    · rw [verify_encrypted_content, hs]
      simp
      omega

/-- Witness for C4: the amended statement instantiated at a 27-byte
all-zero blob and its base64 encoding. -/
theorem short_sealed_always_fails_witness :
    testSealed27.length < 28 ∧
    decrypt_master_key testSealed27 testPassword testSalt ≠ Except.ok testMek ∧
    b64decode (b64encode testSealed27) = some testSealed27 ∧
    decrypt_content (b64encode testSealed27) testMek ≠ Except.ok [0] ∧
    verify_encrypted_content (b64encode testSealed27) = false := by
  have hb : b64decode (b64encode testSealed27) = some testSealed27 := by decide
  have main := short_sealed_always_fails testMek testSealed27 (b64encode testSealed27)
    testPassword testSalt testMek [0] (by decide)
  exact ⟨by decide, main.1, hb, (main.2 hb).1, (main.2 hb).2⟩

/-- C4 counterexample: for the 27-byte all-zero blob the claim predicts a
`MalformedCiphertext` rejection before any AEAD decryption, but the code
reaches the AEAD layer and fails there with the library's `InvalidTag`,
which is a different error. -/
theorem short_sealed_error_is_invalid_tag :
    decrypt_master_key testSealed27 testPassword testSalt =
      Except.error CryptoError.invalidTag ∧
    CryptoError.invalidTag ≠ CryptoError.malformedCiphertext := by
  constructor
  · rfl
  · decide

/-- Two distinct lists of equal length disagree at some position. -/
theorem exists_getElem_ne {l1 l2 : List Nat} (hlen : l1.length = l2.length)
    (hne : l1 ≠ l2) :
    ∃ i, ∃ (h1 : i < l1.length) (h2 : i < l2.length), l1[i] ≠ l2[i] := by
  by_contra hcon
  push_neg at hcon
  exact hne (List.ext_getElem hlen (fun i h1 h2 => hcon i h1 h2))

/-- C2: for every 32-byte key and every plaintext (a valid byte string,
as produced by `str.encode`), decrypting the output of `encrypt_content`
with the same key recovers the plaintext exactly, through the base64
transport encoding applied by `encrypt_content` and removed by
`decrypt_content`.  The 12 random nonce bytes are passed explicitly. -/
theorem content_roundtrip (plaintext master_key nonce s : List Nat)
    (hk : master_key.length = 32) (hp : ∀ b ∈ plaintext, b < 256)
    (hn : nonce.length = 12) (hnb : ∀ b ∈ nonce, b < 256)
    (henc : encrypt_content plaintext master_key nonce = Except.ok s) :
    decrypt_content s master_key = Except.ok plaintext := by
  rw [encrypt_content, chachaPolyEncrypt_ok _ _ _ hk hn] at henc
  have henc' : Except.ok (b64encode (nonce ++
      (chachaXor master_key nonce plaintext ++
        poly1305Tag master_key nonce (chachaXor master_key nonce plaintext)))) =
      Except.ok s := henc
  have hs := Except.ok.inj henc'
  subst hs
  have hbytes : ∀ b ∈ nonce ++
      (chachaXor master_key nonce plaintext ++
        poly1305Tag master_key nonce (chachaXor master_key nonce plaintext)),
      b < 256 := by
    intro b hb
    rcases List.mem_append.mp hb with hb | hb
    · exact hnb b hb
    · rcases List.mem_append.mp hb with hb | hb
      · exact chachaXor_lt_256 _ _ _ hp b hb
      · exact poly1305Tag_lt_256 _ _ _ b hb
  have hdec := b64decode_b64encode _ hbytes
  rw [decrypt_content, hdec, ← hn]
  show chachaPolyDecrypt master_key
      (List.take nonce.length (nonce ++ (chachaXor master_key nonce plaintext ++
        poly1305Tag master_key nonce (chachaXor master_key nonce plaintext))))
      (List.drop nonce.length (nonce ++ (chachaXor master_key nonce plaintext ++
        poly1305Tag master_key nonce (chachaXor master_key nonce plaintext)))) =
      Except.ok plaintext
  rw [List.take_left, List.drop_left]
  exact chachaPolyDecrypt_seal _ _ _ hk hn

/-- Witness for C2: the round trip instantiated at the plaintext `Hi`,
the test master key and the all-zero nonce. -/
theorem content_roundtrip_witness :
    testMek.length = 32 ∧ testNonce.length = 12 ∧
    encrypt_content [72, 105] testMek testNonce = Except.ok testContentSealed ∧
    decrypt_content testContentSealed testMek = Except.ok [72, 105] := by
  have henc : encrypt_content [72, 105] testMek testNonce = Except.ok testContentSealed := by
    rfl
  exact ⟨by decide, by decide, henc,
    content_roundtrip [72, 105] testMek testNonce testContentSealed (by decide)
      (by decide) (by decide) (by decide) henc⟩

/-- Core of C1's negative half: opening a sealed blob with a different
32-byte key never returns the original plaintext — either the tag check
fails, or (in the model's measure-zero tag-collision case) the stream
decryption yields bytes that differ from the plaintext, because distinct
keys give distinct keystream bytes at the first differing key
position. -/
theorem chachaPolyDecrypt_wrong_key (key1 key2 nonce pt : List Nat)
    (hk1 : key1.length = 32) (hk2 : key2.length = 32) (hpt : pt.length = 32)
    (hb1 : ∀ b ∈ key1, b < 256) (hb2 : ∀ b ∈ key2, b < 256)
    (hnonce : nonce.length = 12) (hne : key2 ≠ key1) :
    chachaPolyDecrypt key2 nonce
      (chachaXor key1 nonce pt ++ poly1305Tag key1 nonce (chachaXor key1 nonce pt)) ≠
      Except.ok pt := by
  intro hcon
  have hctlen : (chachaXor key1 nonce pt).length = 32 := by
    rw [chachaXor_length, hpt]
  have hbodylen : (chachaXor key1 nonce pt ++
      poly1305Tag key1 nonce (chachaXor key1 nonce pt)).length = 48 := by
    rw [List.length_append, hctlen, poly1305Tag_length]
  rw [chachaPolyDecrypt] at hcon
  rw [if_neg (by simp [hk2])] at hcon
  rw [if_neg (by simp [hnonce])] at hcon
  rw [if_neg (by rw [hbodylen]; omega)] at hcon
  simp only [hbodylen] at hcon
  norm_num at hcon
  rw [← hctlen, List.take_left, List.drop_left] at hcon
  by_cases htag : poly1305Tag key1 nonce (chachaXor key1 nonce pt) =
      poly1305Tag key2 nonce (chachaXor key1 nonce pt)
  · rw [if_pos htag] at hcon
    have heq := Except.ok.inj hcon
    obtain ⟨i, hi1, hi2, hneq⟩ := exists_getElem_ne (hk2.trans hk1.symm) hne
    have hi32 : i < 32 := by rw [← hk2]; exact hi1
    have hgd2 : key2.getD i 0 < 256 := by
      rw [List.getD_eq_getElem _ 0 hi1]
      exact hb2 _ (List.getElem_mem hi1)
    have hgd1 : key1.getD i 0 < 256 := by
      rw [List.getD_eq_getElem _ 0 hi2]
      exact hb1 _ (List.getElem_mem hi2)
    have hdne : key2.getD i 0 ≠ key1.getD i 0 := by
      rw [List.getD_eq_getElem _ 0 hi1, List.getD_eq_getElem _ 0 hi2]
      exact hneq
    have hks : chachaKeystream key2 nonce i ≠ chachaKeystream key1 nonce i := by
      simp only [chachaKeystream, Nat.mod_eq_of_lt hi32]
      intro hx
      omega
    have hgetD := congrArg (fun l => l.getD i 0) heq
    simp only at hgetD
    rw [chachaXor_getD _ _ _ i (by rw [hctlen]; exact hi32)] at hgetD
    rw [chachaXor_getD _ _ _ i (by rw [hpt]; exact hi32)] at hgetD
    apply hks
    have hA : pt.getD i 0 ^^^ chachaKeystream key1 nonce i =
        pt.getD i 0 ^^^ chachaKeystream key2 nonce i := by
      have hc := congrArg (fun y => y ^^^ chachaKeystream key2 nonce i) hgetD
      simp only at hc
      rwa [Nat.xor_cancel_right] at hc
    have hB : chachaKeystream key1 nonce i = chachaKeystream key2 nonce i := by
      have hc := congrArg (fun y => pt.getD i 0 ^^^ y) hA
      simp only [← Nat.xor_assoc, Nat.xor_self, Nat.zero_xor] at hc
      exact hc
    exact hB.symm
  · rw [if_neg htag] at hcon
    exact Except.noConfusion hcon

/-- C1: envelope correctness.  For every password, 32-byte master key and
32-byte salt (with the 12 random nonce bytes passed explicitly),
decrypting the wrapped blob with the same password and salt returns the
master key; decrypting the same wrapped blob with any password that
derives a different KDK — the cryptographic content of "a different
password", since Argon2id collisions are the only exception — fails
rather than returning the master key: the AEAD tag check rejects it, and
even in the model's tag-collision corner the decryption output differs
from the master key. -/
theorem envelope_correctness (password password2 master_key salt nonce wrapped : List Nat)
    (hmek : master_key.length = 32) (hsalt : salt.length = 32) (hnonce : nonce.length = 12)
    (hw : encrypt_master_key master_key password salt nonce = Except.ok wrapped) :
    decrypt_master_key wrapped password salt = Except.ok master_key ∧
    (argon2id password2 salt ≠ argon2id password salt →
      decrypt_master_key wrapped password2 salt ≠ Except.ok master_key) := by
  have hd1 : derive_key_from_password password salt = Except.ok (argon2id password salt) := by
    rw [derive_key_from_password, if_neg (by omega)]
  have hd2 : derive_key_from_password password2 salt =
      Except.ok (argon2id password2 salt) := by
    rw [derive_key_from_password, if_neg (by omega)]
  have hlen1 := argon2id_length password salt
  rw [encrypt_master_key, hd1] at hw
  have hw1 : (chachaPolyEncrypt (argon2id password salt) nonce master_key >>=
      fun body => Except.ok (nonce ++ body)) = Except.ok wrapped := hw
  rw [chachaPolyEncrypt_ok _ _ _ hlen1 hnonce] at hw1
  have hw2 : Except.ok (nonce ++ (chachaXor (argon2id password salt) nonce master_key ++
      poly1305Tag (argon2id password salt) nonce
        (chachaXor (argon2id password salt) nonce master_key))) =
      Except.ok wrapped := hw1
  have hwe := Except.ok.inj hw2
  subst hwe
  constructor
  · rw [decrypt_master_key, hd1]
    have goal1 : chachaPolyDecrypt (argon2id password salt)
        (List.take 12 (nonce ++ (chachaXor (argon2id password salt) nonce master_key ++
          poly1305Tag (argon2id password salt) nonce
            (chachaXor (argon2id password salt) nonce master_key))))
        (List.drop 12 (nonce ++ (chachaXor (argon2id password salt) nonce master_key ++
          poly1305Tag (argon2id password salt) nonce
            (chachaXor (argon2id password salt) nonce master_key)))) =
        Except.ok master_key := by
      rw [← hnonce, List.take_left, List.drop_left]
      exact chachaPolyDecrypt_seal _ _ _ hlen1 hnonce
    exact goal1
  · intro hne hcon
    rw [decrypt_master_key, hd2] at hcon
    have hcon1 : chachaPolyDecrypt (argon2id password2 salt)
        (List.take 12 (nonce ++ (chachaXor (argon2id password salt) nonce master_key ++
          poly1305Tag (argon2id password salt) nonce
            (chachaXor (argon2id password salt) nonce master_key))))
        (List.drop 12 (nonce ++ (chachaXor (argon2id password salt) nonce master_key ++
          poly1305Tag (argon2id password salt) nonce
            (chachaXor (argon2id password salt) nonce master_key)))) =
        Except.ok master_key := hcon
    rw [← hnonce, List.take_left, List.drop_left] at hcon1
    exact chachaPolyDecrypt_wrong_key (argon2id password salt) (argon2id password2 salt)
      nonce master_key hlen1 (argon2id_length _ _) hmek
      (argon2id_lt_256 _ _) (argon2id_lt_256 _ _) hnonce hne hcon1

/-- Witness for C1: the envelope round trip and wrong-password rejection
instantiated at the passwords `a` and `b`, the test master key, the
all-zero salt and the all-zero nonce. -/
theorem envelope_correctness_witness :
    testMek.length = 32 ∧ testSalt.length = 32 ∧ testNonce.length = 12 ∧
    encrypt_master_key testMek testPassword testSalt testNonce = Except.ok testWrapped ∧
    argon2id testPassword2 testSalt ≠ argon2id testPassword testSalt ∧
    decrypt_master_key testWrapped testPassword testSalt = Except.ok testMek ∧
    decrypt_master_key testWrapped testPassword2 testSalt ≠ Except.ok testMek := by
  have hw : encrypt_master_key testMek testPassword testSalt testNonce =
      Except.ok testWrapped := by rfl
  have hne : argon2id testPassword2 testSalt ≠ argon2id testPassword testSalt := by decide
  have main := envelope_correctness testPassword testPassword2 testMek testSalt testNonce
    testWrapped (by decide) (by decide) (by decide) hw
  exact ⟨by decide, by decide, by decide, hw, hne, main.1, main.2 hne⟩

/-- C6 (amended): for a stored recovery-code row matching the submitted
code with `used_at IS NULL` (and unique, as `scalar_one_or_none`
requires), the first `verify_recovery_code` call returns true and sets
that row's `used_at` from `NULL` to the current time — the `used_at`
transition happens exactly once and monotonically — while the `used`
boolean column is left untouched (the service never calls
`mark_as_used`); an immediate second call with the same code returns
false and changes no state. -/
theorem recovery_code_one_shot (db : List RecoveryCodeRow) (uid now now2 : Nat)
    (code : List Nat) (r : RecoveryCodeRow)
    (hfilter : db.filter (recoveryRowMatches uid (hash_recovery_code code)) = [r]) :
    ∃ db2, verify_recovery_code db uid code now = some (true, db2) ∧
      { r with usedAt := some now } ∈ db2 ∧
      db2.map (fun x => x.used) = db.map (fun x => x.used) ∧
      verify_recovery_code db2 uid code now2 = some (false, db2) := by
  refine ⟨db.map (fun x =>
      if recoveryRowMatches uid (hash_recovery_code code) x then
        { x with usedAt := some now }
      else x), ?_, ?_, ?_, ?_⟩
  · rw [verify_recovery_code, hfilter]
  · have hrmem : r ∈ db.filter (recoveryRowMatches uid (hash_recovery_code code)) := by
      rw [hfilter]
      simp
    have hr := List.mem_filter.mp hrmem
    have hupd : { r with usedAt := some now } =
        (fun x => if recoveryRowMatches uid (hash_recovery_code code) x then
          { x with usedAt := some now } else x) r := by
      simp only [if_pos hr.2]
    rw [hupd]
    exact List.mem_map_of_mem _ hr.1
  · rw [List.map_map]
    apply List.map_congr_left
    intro x _
    by_cases hpx : recoveryRowMatches uid (hash_recovery_code code) x = true
    · simp only [Function.comp, if_pos hpx]
    · simp only [Function.comp, if_neg hpx]
  · rw [verify_recovery_code]
    have hnil : (db.map (fun x =>
        if recoveryRowMatches uid (hash_recovery_code code) x then
          { x with usedAt := some now }
        else x)).filter (recoveryRowMatches uid (hash_recovery_code code)) = [] := by
      rw [List.filter_eq_nil_iff]
      intro x hx
      obtain ⟨y, _, rfl⟩ := List.mem_map.mp hx
      by_cases hpy : recoveryRowMatches uid (hash_recovery_code code) y = true
      · rw [if_pos hpy]
        simp [recoveryRowMatches]
      · rw [if_neg hpy]
        exact hpy
    rw [hnil]

/-- Witness for C6: the one-shot behaviour on a one-row table holding the
unused hash of the code `AB` for user 0. -/
theorem recovery_code_one_shot_witness :
    testDb.filter (recoveryRowMatches 0 (hash_recovery_code testCodeA)) =
      [{ userId := 0, codeHash := hash_recovery_code testCodeA,
         used := false, usedAt := none }] ∧
    ∃ db2, verify_recovery_code testDb 0 testCodeA 5 = some (true, db2) ∧
      ({ userId := 0, codeHash := hash_recovery_code testCodeA,
         used := false, usedAt := some 5 } : RecoveryCodeRow) ∈ db2 ∧
      db2.map (fun x => x.used) = testDb.map (fun x => x.used) ∧
      verify_recovery_code db2 0 testCodeA 6 = some (false, db2) := by
  have hf : testDb.filter (recoveryRowMatches 0 (hash_recovery_code testCodeA)) =
      [{ userId := 0, codeHash := hash_recovery_code testCodeA,
         used := false, usedAt := none }] := by decide
  exact ⟨hf, recovery_code_one_shot testDb 0 5 6 testCodeA _ hf⟩

/-- C6 counterexample: the first call on the one-row table returns true,
yet the row's `used` boolean is still false afterwards — the claim's
"flips that record's used flag (the used boolean goes false to true)"
does not happen; only `used_at` changes. -/
theorem recovery_code_used_flag_not_flipped :
    (verify_recovery_code testDb 0 testCodeA 5).map
        (fun p => (p.1, p.2.map (fun x => x.used))) = some (true, [false]) := by
  decide

/-! ## Helper lemmas: recovery-code formatting -/

theorem hexUpperVal_hexUpper : ∀ v < 16, hexUpperVal (hexUpper v) = v := by
  decide

theorem isUpperHexDigit_hexUpper : ∀ v < 16, isUpperHexDigit (hexUpper v) = true := by
  decide

theorem recoveryCodeOf_explicit (b0 b1 b2 b3 b4 b5 b6 b7 : Nat) :
    recoveryCodeOf [b0, b1, b2, b3, b4, b5, b6, b7] =
      [hexUpper (b0 / 16 % 16), hexUpper (b0 % 16),
       hexUpper (b1 / 16 % 16), hexUpper (b1 % 16), 45,
       hexUpper (b2 / 16 % 16), hexUpper (b2 % 16),
       hexUpper (b3 / 16 % 16), hexUpper (b3 % 16), 45,
       hexUpper (b4 / 16 % 16), hexUpper (b4 % 16),
       hexUpper (b5 / 16 % 16), hexUpper (b5 % 16), 45,
       hexUpper (b6 / 16 % 16), hexUpper (b6 % 16),
       hexUpper (b7 / 16 % 16), hexUpper (b7 % 16)] := by
  rfl

theorem codeBytes_recoveryCodeOf (b0 b1 b2 b3 b4 b5 b6 b7 : Nat)
    (h0 : b0 < 256) (h1 : b1 < 256) (h2 : b2 < 256) (h3 : b3 < 256)
    (h4 : b4 < 256) (h5 : b5 < 256) (h6 : b6 < 256) (h7 : b7 < 256) :
    codeBytes (recoveryCodeOf [b0, b1, b2, b3, b4, b5, b6, b7]) =
      [b0, b1, b2, b3, b4, b5, b6, b7] := by
  rw [recoveryCodeOf_explicit]
  show [hexUpperVal (hexUpper (b0 / 16 % 16)) * 16 + hexUpperVal (hexUpper (b0 % 16)),
        hexUpperVal (hexUpper (b1 / 16 % 16)) * 16 + hexUpperVal (hexUpper (b1 % 16)),
        hexUpperVal (hexUpper (b2 / 16 % 16)) * 16 + hexUpperVal (hexUpper (b2 % 16)),
        hexUpperVal (hexUpper (b3 / 16 % 16)) * 16 + hexUpperVal (hexUpper (b3 % 16)),
        hexUpperVal (hexUpper (b4 / 16 % 16)) * 16 + hexUpperVal (hexUpper (b4 % 16)),
        hexUpperVal (hexUpper (b5 / 16 % 16)) * 16 + hexUpperVal (hexUpper (b5 % 16)),
        hexUpperVal (hexUpper (b6 / 16 % 16)) * 16 + hexUpperVal (hexUpper (b6 % 16)),
        hexUpperVal (hexUpper (b7 / 16 % 16)) * 16 + hexUpperVal (hexUpper (b7 % 16))] =
      [b0, b1, b2, b3, b4, b5, b6, b7]
  rw [hexUpperVal_hexUpper (b0 / 16 % 16) (by omega), hexUpperVal_hexUpper (b0 % 16) (by omega),
    hexUpperVal_hexUpper (b1 / 16 % 16) (by omega), hexUpperVal_hexUpper (b1 % 16) (by omega),
    hexUpperVal_hexUpper (b2 / 16 % 16) (by omega), hexUpperVal_hexUpper (b2 % 16) (by omega),
    hexUpperVal_hexUpper (b3 / 16 % 16) (by omega), hexUpperVal_hexUpper (b3 % 16) (by omega),
    hexUpperVal_hexUpper (b4 / 16 % 16) (by omega), hexUpperVal_hexUpper (b4 % 16) (by omega),
    hexUpperVal_hexUpper (b5 / 16 % 16) (by omega), hexUpperVal_hexUpper (b5 % 16) (by omega),
    hexUpperVal_hexUpper (b6 / 16 % 16) (by omega), hexUpperVal_hexUpper (b6 % 16) (by omega),
    hexUpperVal_hexUpper (b7 / 16 % 16) (by omega), hexUpperVal_hexUpper (b7 % 16) (by omega)]
  simp only [List.cons.injEq, and_true]
  exact ⟨by omega, by omega, by omega, by omega, by omega, by omega, by omega, by omega⟩

theorem codeBytes_token (rand : Nat → Nat) (j : Nat) :
    codeBytes (recoveryCodeOf (tokenBytes8 rand j)) = tokenBytes8 rand j := by
  exact codeBytes_recoveryCodeOf
    (rand (8 * j + 0) % 256) (rand (8 * j + 1) % 256) (rand (8 * j + 2) % 256)
    (rand (8 * j + 3) % 256) (rand (8 * j + 4) % 256) (rand (8 * j + 5) % 256)
    (rand (8 * j + 6) % 256) (rand (8 * j + 7) % 256)
    (Nat.mod_lt _ (by norm_num)) (Nat.mod_lt _ (by norm_num))
    (Nat.mod_lt _ (by norm_num)) (Nat.mod_lt _ (by norm_num))
    (Nat.mod_lt _ (by norm_num)) (Nat.mod_lt _ (by norm_num))
    (Nat.mod_lt _ (by norm_num)) (Nat.mod_lt _ (by norm_num))

theorem generate_recovery_codes_getD (rand : Nat → Nat) (count j : Nat) (hj : j < count) :
    (generate_recovery_codes count rand).getD j [] =
      recoveryCodeOf (tokenBytes8 rand j) := by
  have hlen : j < (generate_recovery_codes count rand).length := by
    simp only [generate_recovery_codes, List.length_map, List.length_range]
    exact hj
  rw [List.getD_eq_getElem _ _ hlen]
  simp [generate_recovery_codes]

/-- C7 (amended): each generated recovery code is built from 8 random
bytes (`secrets.token_bytes(8)`), not 16, rendered as four hyphen-grouped
uppercase-hex quartets — 19 characters with hyphens at positions 4, 9
and 14 and uppercase hex digits everywhere else; `generate_recovery_codes
10` returns exactly 10 such strings, and two codes in the batch are
distinct whenever their underlying 8-byte draws are distinct (the
generator performs no explicit uniqueness re-check). -/
theorem recovery_codes_amended (rand : Nat → Nat) :
    (generate_recovery_codes 10 rand).length = 10 ∧
    (∀ j, j < 10 →
      ((generate_recovery_codes 10 rand).getD j []).length = 19 ∧
      ((generate_recovery_codes 10 rand).getD j []).getD 4 0 = 45 ∧
      ((generate_recovery_codes 10 rand).getD j []).getD 9 0 = 45 ∧
      ((generate_recovery_codes 10 rand).getD j []).getD 14 0 = 45 ∧
      (∀ i, i < 19 → i ≠ 4 → i ≠ 9 → i ≠ 14 →
        isUpperHexDigit (((generate_recovery_codes 10 rand).getD j []).getD i 0) = true)) ∧
    (∀ i j, i < 10 → j < 10 → tokenBytes8 rand i ≠ tokenBytes8 rand j →
      (generate_recovery_codes 10 rand).getD i [] ≠
        (generate_recovery_codes 10 rand).getD j []) := by
  refine ⟨by simp [generate_recovery_codes], ?_, ?_⟩
  · intro j hj
    rw [generate_recovery_codes_getD rand 10 j hj]
    have hsh : recoveryCodeOf (tokenBytes8 rand j) =
        [hexUpper (rand (8 * j + 0) % 256 / 16 % 16), hexUpper (rand (8 * j + 0) % 256 % 16),
         hexUpper (rand (8 * j + 1) % 256 / 16 % 16), hexUpper (rand (8 * j + 1) % 256 % 16), 45,
         hexUpper (rand (8 * j + 2) % 256 / 16 % 16), hexUpper (rand (8 * j + 2) % 256 % 16),
         hexUpper (rand (8 * j + 3) % 256 / 16 % 16), hexUpper (rand (8 * j + 3) % 256 % 16), 45,
         hexUpper (rand (8 * j + 4) % 256 / 16 % 16), hexUpper (rand (8 * j + 4) % 256 % 16),
         hexUpper (rand (8 * j + 5) % 256 / 16 % 16), hexUpper (rand (8 * j + 5) % 256 % 16), 45,
         hexUpper (rand (8 * j + 6) % 256 / 16 % 16), hexUpper (rand (8 * j + 6) % 256 % 16),
         hexUpper (rand (8 * j + 7) % 256 / 16 % 16), hexUpper (rand (8 * j + 7) % 256 % 16)] :=
      recoveryCodeOf_explicit _ _ _ _ _ _ _ _
    rw [hsh]
    refine ⟨rfl, rfl, rfl, rfl, ?_⟩
    intro i hi h4 h9 h14
    interval_cases i <;>
      first
        | omega
        | exact isUpperHexDigit_hexUpper _ (by omega)
  · intro i j hi hj hneq hcon
    rw [generate_recovery_codes_getD rand 10 i hi,
      generate_recovery_codes_getD rand 10 j hj] at hcon
    apply hneq
    rw [← codeBytes_token rand i, ← codeBytes_token rand j, hcon]

/-- Witness for C7: the amended statement instantiated at the identity
byte stream (and the distinctness conjunct at the first two draws, which
differ). -/
theorem recovery_codes_amended_witness :
    (generate_recovery_codes 10 streamA).length = 10 ∧
    tokenBytes8 streamA 0 ≠ tokenBytes8 streamA 1 ∧
    (generate_recovery_codes 10 streamA).getD 0 [] ≠
      (generate_recovery_codes 10 streamA).getD 1 [] := by
  have hd : tokenBytes8 streamA 0 ≠ tokenBytes8 streamA 1 := by decide
  exact ⟨(recovery_codes_amended streamA).1, hd,
    (recovery_codes_amended streamA).2.2 0 1 (by omega) (by omega) hd⟩

/-- C7 counterexample: the claim says each code is 16 random bytes
formatted into the 19-character string, but the generated code ignores
random bytes 8 through 15 entirely — two streams that differ at byte 8
produce identical output — because the code draws only
`secrets.token_bytes(8)` per code. -/
theorem recovery_code_ignores_bytes_beyond_8 :
    generate_recovery_codes 1 streamA = generate_recovery_codes 1 streamB ∧
    streamA 8 ≠ streamB 8 := by
  constructor
  · decide
  · decide
